import Mathlib

/-!
Verification development for the atom-plan calculator runtime.

The definitions below are a shallow embedding of the Python sources:
`atom_pipeliner.py` (class `Calculator`), `runnables/my_runnable.py`
(`Runnable` / `RunnableSequence`), `runnables/calculator_runnable.py`
(`CalculatorRunnable`), the arithmetic runnables, and the
`DeferredRunnable` class.  Python exceptions are modelled by `PyErr`
values carrying the exception class name; Python numbers are modelled
by exact fractions (`PyNum`, floating-point rounding is not modelled);
Python dicts by insertion-ordered association lists
(`pyGet` / `pySet`); unbounded recursion by an explicit fuel
parameter, where exhausting any fuel corresponds to exceeding the
recursion limit (`RecursionError`).
-/

namespace AtomCalc

/-- A raised Python exception: class name and message. -/
structure PyErr where
  cls : String
  msg : String
deriving DecidableEq, Repr

def keyError (k : String) : PyErr := ⟨"KeyError", k⟩

def typeError (m : String) : PyErr := ⟨"TypeError", m⟩

def valueError (m : String) : PyErr := ⟨"ValueError", m⟩

def runtimeError (m : String) : PyErr := ⟨"RuntimeError", m⟩

def indexError : PyErr := ⟨"IndexError", "list index out of range"⟩

def zeroDivisionError : PyErr := ⟨"ZeroDivisionError", "division by zero"⟩

def recursionError : PyErr := ⟨"RecursionError", "maximum recursion depth exceeded"⟩

def attributeError (m : String) : PyErr := ⟨"AttributeError", m⟩

deriving instance DecidableEq for Except

/-- `exceptOk e` is `true` iff the computation did not raise. -/
def exceptOk {α : Type} : Except PyErr α → Bool
  | .ok _ => true
  | .error _ => false

/-- Python dict lookup (`d[k]` as an `Option`): first binding for `k`.
`pySet` keeps keys unique, so this is the dict semantics. -/
def pyGet {κ β : Type} [DecidableEq κ] (d : List (κ × β)) (k : κ) : Option β :=
  match d with
  | [] => none
  | (k', v) :: rest => if k' = k then some v else pyGet rest k

/-- Python dict assignment `d[k] = v`: updates in place if `k` is
present (keeping its position, as Python dicts do), else appends. -/
def pySet {κ β : Type} [DecidableEq κ] (d : List (κ × β)) (k : κ) (v : β) : List (κ × β) :=
  match d with
  | [] => [(k, v)]
  | (k', v') :: rest => if k' = k then (k, v) :: rest else (k', v') :: pySet rest k v

/-- A Python number (int or float), modelled as an exact fraction
`num / den` over unbounded integers; `den` is positive in every value
the engine constructs.  Fractions are kept unnormalized so that all
arithmetic is plain `Int` arithmetic. -/
structure PyNum where
  num : Int
  den : Int
deriving DecidableEq, Repr

/-- Embed an integer literal. -/
def PyNum.ofInt (n : Int) : PyNum := ⟨n, 1⟩

instance : OfNat PyNum n := ⟨PyNum.ofInt n⟩

def PyNum.add (a b : PyNum) : PyNum := ⟨a.num * b.den + b.num * a.den, a.den * b.den⟩

def PyNum.sub (a b : PyNum) : PyNum := ⟨a.num * b.den - b.num * a.den, a.den * b.den⟩

def PyNum.mul (a b : PyNum) : PyNum := ⟨a.num * b.num, a.den * b.den⟩

/-- Division, assuming the divisor is nonzero (checked by the caller). -/
def PyNum.div (a b : PyNum) : PyNum := ⟨a.num * b.den, a.den * b.num⟩

/-- The value `0`, i.e. Python `b == 0`. -/
def PyNum.isZero (a : PyNum) : Bool := a.num == 0

/-- Numeric equality of two fractions (Python `==` on numbers). -/
def PyNum.eqv (a b : PyNum) : Bool := a.num * b.den == b.num * a.den

/-- The rational value denoted by a `PyNum`. -/
def PyNum.toRat (a : PyNum) : Rat := (a.num : Rat) / (a.den : Rat)

/-- An input value of a tool atom: a JSON number or a JSON string
(back-references are strings of the form `<result_of_N>`). -/
inductive InVal where
  | num (q : PyNum)
  | strv (s : String)
deriving DecidableEq, Repr

/-- A validated atom (the `Atom` TypedDict of `atom_pipeliner.py`).
`final` atoms carry no `input` key in the source; here their `input`
list is empty. -/
structure Atom where
  id : Int
  kind : String
  name : String
  input : List (String × InVal)
  dependsOn : List Int
deriving DecidableEq, Repr

/-- The `AtomPlan` TypedDict: the ordered list of atoms. -/
structure Plan where
  atoms : List Atom
deriving DecidableEq, Repr

/-! ### Back-reference resolution (`Calculator._resolve_inputs_non_linear`) -/

/-- The marker prefix of a back-reference string. -/
def refHead : String := "<result_of_"

/-- `str.startswith`, on Python's code-point view of strings. -/
def pyStartsWith (s pre : String) : Bool :=
  decide (s.data.take pre.data.length = pre.data)

/-- Accumulate decimal digits, failing on a non-digit character. -/
def parseNatAux : List Char → Nat → Option Nat
  | [], acc => some acc
  | c :: rest, acc =>
    if c.isDigit then parseNatAux rest (10 * acc + (c.toNat - 48)) else none

/-- Python `int(...)` on a string of decimal digits with an optional
leading minus sign; anything else raises `ValueError` (signalled here
by `none`). -/
def parseIntChars : List Char → Option Int
  | [] => none
  | '-' :: rest =>
    match rest with
    | [] => none
    | _ => (parseNatAux rest 0).map (fun n => -(n : Int))
  | cs => (parseNatAux cs 0).map (fun n => (n : Int))

/-- `int(value[len("<result_of_"):-1])`: extract the referenced atom
id; the slice `[11:-1]` drops the marker prefix and the trailing `>`. -/
def refTargetId (s : String) : Except PyErr Int :=
  match parseIntChars ((s.data.drop 11).dropLast) with
  | some n => .ok n
  | none => .error (valueError ("invalid literal for int"))

/-- The `KeyError` raised by `results[atom_id]` on an absent id. -/
def resultsKeyError : PyErr := ⟨"KeyError", "atom id not in results"⟩

/-- One value of `Calculator._resolve_inputs_non_linear`: a string
starting with `<result_of_` is replaced by `results[atom_id]` (a
missing key raises `KeyError`); anything else passes through. -/
def resolveValue (results : List (Int × PyNum)) : InVal → Except PyErr InVal
  | .num q => .ok (.num q)
  | .strv s =>
    if pyStartsWith s refHead then
      match refTargetId s with
      | .error e => .error e
      | .ok n =>
        match pyGet results n with
        | some v => .ok (.num v)
        | none => .error resultsKeyError
    else .ok (.strv s)

/-- `Calculator._resolve_inputs_non_linear`: resolve every entry of the
raw input dict against the results context. -/
def resolveInputs (raw : List (String × InVal)) (results : List (Int × PyNum)) :
    Except PyErr (List (String × InVal)) :=
  raw.foldlM
    (fun acc kv =>
      match resolveValue results kv.2 with
      | .error e => .error e
      | .ok v => .ok (pySet acc kv.1 v))
    []

/-! ### Topological sort (`Calculator._topological_sort`;
`CalculatorRunnable._topological_sort` is the identical code) -/

/-- The mutable state of `_topological_sort`: the `visited` set and the
`sorted_atoms` output list. -/
structure SortState where
  visited : List Int
  sortedAtoms : List Atom
deriving DecidableEq, Repr

/-- The `KeyError` raised by `atoms[atom_id]` on an id absent from the
plan's atoms dict. -/
def atomsKeyError : PyErr := ⟨"KeyError", "atom id not in atoms"⟩

/-- The recursive `visit(atom_id)` helper.  The fuel parameter models
Python's recursion stack: running out of fuel is `RecursionError`.
`atoms[atom_id]` on an absent id raises `KeyError`. -/
def visit (atomsd : List (Int × Atom)) : Nat → Int → SortState → Except PyErr SortState
  | 0, _, _ => .error recursionError
  | fuel + 1, atomId, st =>
    if atomId ∈ st.visited then .ok st
    else
      match pyGet atomsd atomId with
      | none => .error atomsKeyError
      | some atom =>
        match atom.dependsOn.foldlM (fun s d => visit atomsd fuel d s) st with
        | .error e => .error e
        | .ok st1 => .ok ⟨st1.visited ++ [atomId], st1.sortedAtoms ++ [atom]⟩

/-- The dict `{atom["id"]: atom for atom in ...}` (later duplicate ids
overwrite the stored atom but keep the first position). -/
def atomsDict (plan : Plan) : List (Int × Atom) :=
  plan.atoms.foldl (fun d a => pySet d a.id a) []

/-- `Calculator._topological_sort`: visit every atom id in dict order. -/
def topologicalSort (fuel : Nat) (plan : Plan) : Except PyErr (List Atom) :=
  let atomsd := atomsDict plan
  match (atomsd.map Prod.fst).foldlM (fun s i => visit atomsd fuel i s) ⟨[], []⟩ with
  | .error e => .error e
  | .ok st => .ok st.sortedAtoms

/-! ### Arithmetic runnables -/

/-- The four operation factories of `Calculator._create_deferrable_runnable`
and `CalculatorRunnable._get_factory`. -/
inductive Op where
  | add
  | sub
  | mul
  | div
deriving DecidableEq, Repr

/-- `_create_deferrable_runnable` / `_get_factory`: map an atom name to
its factory, raising `ValueError` on an unknown name. -/
def createDeferrableRunnable (name : String) : Except PyErr Op :=
  match name with
  | "add" => .ok .add
  | "subtract" => .ok .sub
  | "multiply" => .ok .mul
  | "divide" => .ok .div
  | _ => .error (valueError ("Unknown runnable name received"))

/-- Invoking a constructed runnable: `AdditionRunnable(b).invoke(a) = a + b`,
`SubtractionRunnable(b).invoke(a) = a - b`,
`MultiplicationRunnable(b).invoke(a) = a * b`, and
`DivisionRunnable(b).invoke(a) = a / b`, where Python raises
`ZeroDivisionError` when the divisor is `0`. -/
def applyOp (op : Op) (a b : PyNum) : Except PyErr PyNum :=
  match op with
  | .add => .ok (a.add b)
  | .sub => .ok (a.sub b)
  | .mul => .ok (a.mul b)
  | .div => if b.isZero then .error zeroDivisionError else .ok (a.div b)

/-- `DivisionRunnable._call`: `input / self.value` with Python division
semantics (no explicit zero check appears in the source; Python itself
raises `ZeroDivisionError`). -/
def divisionRunnableCall (value input : PyNum) : Except PyErr PyNum :=
  if value.isZero then .error zeroDivisionError else .ok (input.div value)

/-! ### The deferred-construction defect -/

/-- Names bound at the top level of `runnables/deferrable_runnable.py`
(its imports and the `ConfigT` type variable); the module defines no
class at all. -/
def deferrableRunnableModuleNames : List String :=
  ["Runnable", "TypeVar", "Any", "Mapping", "Callable", "Dict", "ConfigT"]

/-- The parameters of a Python function: name and whether the parameter
is required (has no default). -/
structure PyParam where
  pname : String
  required : Bool
deriving DecidableEq, Repr

/-- The parameters of `DeferredRunnable.__init__` (from the sole
`DeferredRunnable` definition in the source tree), `self` omitted:
`factory`, `get_constructor_arg` and `get_invoke_arg` are required,
`config` defaults to `None`. -/
def deferredRunnableParams : List PyParam :=
  [⟨"factory", true⟩, ⟨"get_constructor_arg", true⟩,
   ⟨"get_invoke_arg", true⟩, ⟨"config", false⟩]

/-- The keyword arguments that `Calculator.build_execution_plan` passes
to `DeferredRunnable`. -/
def atomPipelinerCallKeywords : List String := ["factory", "get_constructor_args"]

/-- Python keyword-argument binding: an unknown keyword, or a missing
required parameter, raises `TypeError`. -/
def bindKeywordArgs (params : List PyParam) (supplied : List String) : Except PyErr Unit :=
  match supplied.find? (fun k => params.all (fun p => p.pname != k)) with
  | some k => .error (typeError ("unexpected keyword argument " ++ k))
  | none =>
    match params.find? (fun p => p.required && !(supplied.contains p.pname)) with
    | some p => .error (typeError ("missing required argument " ++ p.pname))
    | none => .ok ()

/-- The exception raised by `deferrable_runnable.DeferredRunnable(...)`:
the imported module binds no name `DeferredRunnable`, so the attribute
access itself fails. -/
def deferredConstructionError : PyErr :=
  attributeError ("module runnables.deferrable_runnable has no attribute DeferredRunnable")

/-! ### The execution engine (`Calculator.build_execution_plan` /
`Calculator.execute_plan`) -/

/-- What an `ExecutionNode` would hold for a tool atom: its operation
factory and the captured raw inputs (the closures `get_a` / `get_b`
both resolve the full raw input dict against the results context). -/
structure ExecNode where
  op : Op
  rawInputs : List (String × InVal)
deriving DecidableEq, Repr

/-- One iteration of the `Calculator.build_execution_plan` loop: a
final atom is skipped; for any other atom the factory is created and
then `deferrable_runnable.DeferredRunnable(...)` is evaluated, which
raises (see `deferredConstructionError`), so no node is ever stored. -/
def buildStep (nodes : List (Int × ExecNode)) (atom : Atom) :
    Except PyErr (List (Int × ExecNode)) :=
  if atom.kind = "final" then .ok nodes
  else
    match createDeferrableRunnable atom.name with
    | .error e => .error e
    | .ok _ => .error deferredConstructionError

/-- `Calculator.build_execution_plan`, as written. -/
def buildExecutionPlan (plan : Plan) : Except PyErr (List (Int × ExecNode)) :=
  plan.atoms.foldlM buildStep []

/-- Pick the resolved numeric value of key `key` (the bodies of the
`get_a` / `get_b` closures followed by the arithmetic runnable's use of
it; a resolved value that is still a plain string is not a number and
Python arithmetic on it raises `TypeError`). -/
def pickInput (node : ExecNode) (key : String) (results : List (Int × PyNum)) :
    Except PyErr PyNum :=
  match resolveInputs node.rawInputs results with
  | .error e => .error e
  | .ok resolved =>
    match pyGet resolved key with
    | none => .error (keyError key)
    | some (.num q) => .ok q
    | some (.strv _) => .error (typeError ("unsupported operand type"))

/-- The main loop of `Calculator.execute_plan` over the sorted atoms:
the first `final` atom returns `results[atom["dependsOn"][0]]`; a tool
atom resolves `a` (`node.get_input`) and `b` (the deferred
constructor argument), applies its operation, and stores the value in
the results context.  Falling off the end raises `RuntimeError`. -/
def runSorted (nodes : List (Int × ExecNode)) :
    List Atom → List (Int × PyNum) → Except PyErr PyNum
  | [], _ => .error (runtimeError ("No final atom found"))
  | atom :: rest, results =>
    if atom.kind = "final" then
      match atom.dependsOn.head? with
      | none => .error indexError
      | some d =>
        match pyGet results d with
        | some v => .ok v
        | none => .error resultsKeyError
    else
      match pyGet nodes atom.id with
      | none => .error (keyError ("atom id not in nodes"))
      | some node =>
        match pickInput node ("a") results with
        | .error e => .error e
        | .ok a =>
          match pickInput node ("b") results with
          | .error e => .error e
          | .ok b =>
            match applyOp node.op a b with
            | .error e => .error e
            | .ok v => runSorted nodes rest (pySet results atom.id v)

/-- `Calculator.execute_plan`, as written: build the nodes (which
raises on any plan with a tool atom), topologically sort, and run. -/
def executePlan (fuel : Nat) (plan : Plan) : Except PyErr PyNum :=
  match buildExecutionPlan plan with
  | .error e => .error e
  | .ok nodes =>
    match topologicalSort fuel plan with
    | .error e => .error e
    | .ok sorted => runSorted nodes sorted []

/-- Modelled from the spec: the deferred-unit construction that
`runnables/deferrable_runnable.py` fails to provide.  Per spec section
4.5 (and the out-of-place `DeferredRunnable` source), a deferred unit
stores the operation factory together with the accessors over the raw
inputs; this builds the execution-node dict that
`Calculator.build_execution_plan` is documented to return. -/
def buildExecutionPlanIntended (plan : Plan) : Except PyErr (List (Int × ExecNode)) :=
  plan.atoms.foldlM
    (fun nodes atom =>
      if atom.kind = "final" then .ok nodes
      else
        match createDeferrableRunnable atom.name with
        | .error e => .error e
        | .ok op => .ok (pySet nodes atom.id ⟨op, atom.input⟩))
    []

/-- Modelled from the spec: `Calculator.execute_plan` with the missing
deferred-unit construction repaired (spec section 4.3); validation,
ordering, resolution and the arithmetic are the embeddings of the
source functions above. -/
def executePlanIntended (fuel : Nat) (plan : Plan) : Except PyErr PyNum :=
  match buildExecutionPlanIntended plan with
  | .error e => .error e
  | .ok nodes =>
    match topologicalSort fuel plan with
    | .error e => .error e
    | .ok sorted => runSorted nodes sorted []

/-! ### Composable units (`my_runnable.Runnable` / `RunnableSequence`)

The arithmetic runnables of the repository are single-value units: a
constructor-captured operand together with an operation.  A
`RunnableSequence` holds an ordered list of units.  This is the part
of the object graph that `pipe` and `__str__` observe. -/

/-- A composable unit: a concrete arithmetic runnable (its class name,
operation and constructor-captured operand), or a `RunnableSequence`
over an ordered list of units. -/
inductive CUnit where
  | prim (name : String) (op : Op) (value : PyNum)
  | seq (rs : List CUnit)
deriving Repr

/-- The separator used by `RunnableSequence.__str__`. -/
def seqSep : String := " | "

mutual

/-- `invoke`: a concrete runnable applies its operation to the input
and its captured operand; a sequence feeds the value through its
units from left to right (`RunnableSequence._call`). -/
def CUnit.invoke : CUnit → PyNum → Except PyErr PyNum
  | .prim _ op v, x => applyOp op x v
  | .seq rs, x => CUnit.invokeList rs x

/-- The `for runnable in self.runnables` loop of
`RunnableSequence._call`. -/
def CUnit.invokeList : List CUnit → PyNum → Except PyErr PyNum
  | [], x => .ok x
  | r :: rest, x =>
    match CUnit.invoke r x with
    | .error e => .error e
    | .ok y => CUnit.invokeList rest y

end

mutual

/-- `__str__`: a concrete runnable prints its class name; a sequence
joins its members with `" | "` (`RunnableSequence.__str__`). -/
def CUnit.pstr : CUnit → String
  | .prim n _ _ => n
  | .seq rs => String.intercalate seqSep (CUnit.pstrList rs)

/-- `str(...)` of every member of a sequence, in order. -/
def CUnit.pstrList : List CUnit → List String
  | [] => []
  | r :: rest => CUnit.pstr r :: CUnit.pstrList rest

end

/-- `pipe`: `Runnable.pipe` wraps receiver and argument into a new
two-element `RunnableSequence`; the `RunnableSequence.pipe` override
instead appends the argument to the receiver's own list. -/
def CUnit.pipe : CUnit → CUnit → CUnit
  | .prim n op v, other => .seq [.prim n op v, other]
  | .seq rs, other => .seq (rs ++ [other])

/-- The methods defined on the `Runnable` base class in
`my_runnable.py`.  There is no `__or__` among them. -/
def runnableClassMethods : List String :=
  ["__init__", "__str__", "_call", "_stream", "invoke", "stream", "batch", "pipe"]

/-- The `TypeError` Python raises for `x | y` when neither operand's
class defines `__or__` / `__ror__`. -/
def unsupportedOrError : PyErr :=
  typeError ("unsupported operand type(s) for |: Runnable and Runnable")

/-- Python's evaluation of `pipeline | runnable` on two `Runnable`
operands: dispatch to `__or__` if the class defines it, else raise. -/
def pyOrRunnables (a b : CUnit) : Except PyErr CUnit :=
  if runnableClassMethods.contains ("__or__") then .ok (.seq [a, b])
  else .error unsupportedOrError

/-- `CalculatorRunnable._build_execution_plan`: topologically sort,
then for each non-final atom obtain the factory (`_get_factory`) and
evaluate `deferrable_runnable.DeferredRunnable(...)`, which raises
(see `deferredConstructionError`) before the `pipeline | runnable`
composition line is ever reached. -/
def crBuildStep (pipeline : Option CUnit) (atom : Atom) : Except PyErr (Option CUnit) :=
  if atom.kind = "final" then .ok pipeline
  else
    match createDeferrableRunnable atom.name with
    | .error e => .error e
    | .ok _ => .error deferredConstructionError

/-- The loop of `CalculatorRunnable._build_execution_plan` over the
sorted atoms (see `crBuildStep`). -/
def crBuildExecutionPlan (fuel : Nat) (plan : Plan) : Except PyErr (Option CUnit) :=
  match topologicalSort fuel plan with
  | .error e => .error e
  | .ok sorted => sorted.foldlM crBuildStep none

/-! ### Raw plan documents and validation
(`Calculator._validate_atom` / `Calculator._validate_atom_plan`;
`CalculatorRunnable` carries the identical code) -/

/-- A parsed JSON value, as `json.loads` produces it: integers and
non-integer numbers are distinct (`isinstance(x, int)`), plus strings,
lists and dicts. -/
inductive J where
  | jint (n : Int)
  | jnum (q : PyNum)
  | jstr (s : String)
  | jlist (xs : List J)
  | jdict (kvs : List (String × J))
deriving Repr

/-- Lookup in a JSON object (`data[k]`, with `k in data` as
`(jget kvs k).isSome`). -/
def jget (kvs : List (String × J)) (k : String) : Option J :=
  match kvs with
  | [] => none
  | (k', v) :: rest => if k' = k then some v else jget rest k

/-- Key presence, Python `k in data`. -/
def jhas (kvs : List (String × J)) (k : String) : Bool := (jget kvs k).isSome

/-- `atom["kind"] == s` for a string `s`. -/
def kindIs (kvs : List (String × J)) (s : String) : Bool :=
  match jget kvs ("kind") with
  | some (.jstr k) => k == s
  | _ => false

/-- `isinstance(x, int)`. -/
def isIntJ : J → Bool
  | .jint _ => true
  | _ => false

/-- The keys every atom must carry (`required_keys`). -/
def requiredAtomKeys : List String := ["id", "kind", "name", "dependsOn"]

/-- `Calculator._validate_atom`, check for check: a dict; the four
required keys; a recognized `kind`; an integer `id`; `dependsOn` a
list of integers; and, for tool atoms, an `input` dict containing both
`a` and `b`. -/
def validateAtom (a : J) : Except PyErr J :=
  match a with
  | .jdict kvs =>
    match requiredAtomKeys.find? (fun k => !(jhas kvs k)) with
    | some k => .error (keyError k)
    | none =>
      if !(kindIs kvs ("tool")) && !(kindIs kvs ("final")) then
        .error (valueError ("Invalid kind"))
      else if !(match jget kvs ("id") with | some v => isIntJ v | none => false) then
        .error (typeError ("id must be int"))
      else if !(match jget kvs ("dependsOn") with
          | some (.jlist ds) => ds.all isIntJ
          | _ => false) then
        .error (typeError ("dependsOn must be a list of ints"))
      else if kindIs kvs ("tool") then
        match jget kvs ("input") with
        | none => .error (keyError ("input"))
        | some (.jdict ik) =>
          if !(jhas ik ("a")) then .error (keyError ("a"))
          else if !(jhas ik ("b")) then .error (keyError ("b"))
          else .ok a
        | some _ => .error (typeError ("input must be a dict"))
      else .ok a
  | _ => .error (typeError ("Atom must be a dict"))

/-- The list comprehension
`[self._validate_atom(a) for a in data["atoms"]]`: validate each atom
in order, propagating the first failure. -/
def validateAtoms : List J → Except PyErr (List J)
  | [] => .ok []
  | a :: rest =>
    match validateAtom a with
    | .error e => .error e
    | .ok b =>
      match validateAtoms rest with
      | .error e => .error e
      | .ok bs => .ok (b :: bs)

/-- `Calculator._validate_atom_plan`: a dict with an `atoms` list;
every atom validates; and `validated_atoms[-1]` (raising `IndexError`
on an empty list) must have kind `final`, else `RuntimeError`. -/
def validateAtomPlan (j : J) : Except PyErr (List J) :=
  match j with
  | .jdict kvs =>
    match jget kvs ("atoms") with
    | none => .error (keyError ("atoms"))
    | some (.jlist as) =>
      match validateAtoms as with
      | .error e => .error e
      | .ok validated =>
        match validated.getLast? with
        | none => .error indexError
        | some la =>
          if (match la with | .jdict akvs => kindIs akvs ("final") | _ => false) then
            .ok validated
          else .error (runtimeError ("No final atom found"))
    | some _ => .error (typeError ("atoms must be a list"))
  | _ => .error (typeError ("AtomPlan must be a dict"))

/-- The structural schema of a single atom, written from the spec's
validation contract (section 4.1): a mapping carrying `id`, `kind`,
`name`, `dependsOn`; a recognized `kind`; an integer `id`; `dependsOn`
a sequence of integers; and, for a `tool` node, an `input` mapping
containing both `a` and `b`. -/
def structOKAtom (a : J) : Bool :=
  match a with
  | .jdict kvs =>
    jhas kvs ("id") && jhas kvs ("kind") && jhas kvs ("name") && jhas kvs ("dependsOn")
      && (kindIs kvs ("tool") || kindIs kvs ("final"))
      && (match jget kvs ("id") with | some v => isIntJ v | none => false)
      && (match jget kvs ("dependsOn") with
          | some (.jlist ds) => ds.all isIntJ
          | _ => false)
      && (!(kindIs kvs ("tool"))
          || (match jget kvs ("input") with
              | some (.jdict ik) => jhas ik ("a") && jhas ik ("b")
              | _ => false))
  | _ => false

/-- The structural schema of a raw plan, written from the spec's
validation contract (section 4.1): a mapping whose `atoms` key holds a
sequence of structurally valid atoms whose last element has kind
`final`.  No duplicate-id condition and no cycle condition appears. -/
def structOKPlan (j : J) : Bool :=
  match j with
  | .jdict kvs =>
    match jget kvs ("atoms") with
    | some (.jlist as) =>
      as.all structOKAtom
        && (match as.getLast? with
            | some (.jdict akvs) => kindIs akvs ("final")
            | _ => false)
    | _ => false
  | _ => false

/-! ### Concrete plans from the sources' own tests -/

/-- The linear `atom_plan` of the tests: `(15 + 7) * 3 - 10`. -/
def linearPlan : Plan :=
  ⟨[⟨1, "tool", "add", [("a", .num 15), ("b", .num 7)], []⟩,
    ⟨2, "tool", "multiply", [("a", .strv ("<result_of_1>")), ("b", .num 3)], [1]⟩,
    ⟨3, "tool", "subtract", [("a", .strv ("<result_of_2>")), ("b", .num 10)], [2]⟩,
    ⟨4, "final", "report", [], [3]⟩]⟩

/-- The `non_linear_atom_plan` of the tests (diamond dependencies):
`(2 + 10 + 4 + 2) * (8 - 4 / 5)`. -/
def diamondPlan : Plan :=
  ⟨[⟨1, "tool", "add", [("a", .num 2), ("b", .num 10)], []⟩,
    ⟨2, "tool", "add", [("a", .strv ("<result_of_1>")), ("b", .num 4)], [1]⟩,
    ⟨3, "tool", "add", [("a", .strv ("<result_of_2>")), ("b", .num 2)], [2]⟩,
    ⟨4, "tool", "divide", [("a", .num 4), ("b", .num 5)], []⟩,
    ⟨5, "tool", "subtract", [("a", .num 8), ("b", .strv ("<result_of_4>"))], [4]⟩,
    ⟨6, "tool", "multiply",
      [("a", .strv ("<result_of_3>")), ("b", .strv ("<result_of_5>"))], [3, 5]⟩,
    ⟨7, "final", "report", [], [6]⟩]⟩

/-- The `scrambled_non_linear_atom_plan` of the tests: the same
computation with dependent atoms listed before their dependencies. -/
def scrambledPlan : Plan :=
  ⟨[⟨1, "tool", "add", [("a", .num 2), ("b", .num 10)], []⟩,
    ⟨2, "tool", "add", [("a", .strv ("<result_of_1>")), ("b", .num 4)], [1]⟩,
    ⟨3, "tool", "add", [("a", .strv ("<result_of_2>")), ("b", .num 2)], [2]⟩,
    ⟨4, "tool", "multiply",
      [("a", .strv ("<result_of_3>")), ("b", .strv ("<result_of_6>"))], [3, 6]⟩,
    ⟨5, "tool", "divide", [("a", .num 4), ("b", .num 5)], []⟩,
    ⟨6, "tool", "subtract", [("a", .num 8), ("b", .strv ("<result_of_5>"))], [5]⟩,
    ⟨7, "final", "report", [], [4]⟩]⟩

/-- Atom 1 of the cyclic plan: depends on atom 2. -/
def cAtom1 : Atom := ⟨1, "tool", "add", [("a", .num 1), ("b", .num 1)], [2]⟩

/-- Atom 2 of the cyclic plan: depends on atom 1. -/
def cAtom2 : Atom := ⟨2, "tool", "add", [("a", .num 1), ("b", .num 1)], [1]⟩

/-- The final atom of the cyclic plan. -/
def cAtom3 : Atom := ⟨3, "final", "report", [], [1]⟩

/-- A plan whose dependency graph has a two-node cycle:
atom 1 depends on atom 2 and atom 2 depends on atom 1. -/
def cyclePlan : Plan := ⟨[cAtom1, cAtom2, cAtom3]⟩

/-- A plan whose single tool atom divides by a literal zero. -/
def divZeroPlan : Plan :=
  ⟨[⟨1, "tool", "divide", [("a", .num 10), ("b", .num 0)], []⟩,
    ⟨2, "final", "report", [], [1]⟩]⟩

/-- A plan with two tool atoms followed by the final atom. -/
def twoToolPlan : Plan :=
  ⟨[⟨1, "tool", "add", [("a", .num 1), ("b", .num 2)], []⟩,
    ⟨2, "tool", "multiply", [("a", .strv ("<result_of_1>")), ("b", .num 3)], [1]⟩,
    ⟨3, "final", "report", [], [2]⟩]⟩

/-- Every id listed in a node's `dependsOn` appears among the ids of
the strictly earlier nodes of the list. -/
def depsBefore (l : List Atom) : Prop :=
  ∀ k, (hk : k < l.length) → ∀ d ∈ (l.get ⟨k, hk⟩).dependsOn,
    d ∈ (l.take k).map Atom.id

/-- The invariant of the topological sort state: `visited` is exactly
the ids of the emitted atoms, without duplicates; emitted atoms are
stored in the dict under their id; and every emitted atom's
dependencies precede it. -/
def SortInv (atomsd : List (Int × Atom)) (st : SortState) : Prop :=
  st.visited = st.sortedAtoms.map Atom.id
  ∧ st.visited.Nodup
  ∧ (∀ a ∈ st.sortedAtoms, pyGet atomsd a.id = some a)
  ∧ depsBefore st.sortedAtoms

/-- The postcondition of a successful `visit`: the invariant is
preserved, output only grows, the visited id is recorded, and every
newly recorded id has rank at most that of the visited id. -/
def visitPost (atomsd : List (Int × Atom)) (r : Int → Nat) (i : Int)
    (st st' : SortState) : Prop :=
  SortInv atomsd st'
  ∧ (∃ tail, st'.sortedAtoms = st.sortedAtoms ++ tail)
  ∧ i ∈ st'.visited
  ∧ ∀ j ∈ st'.visited, j ∈ st.visited ∨ r j ≤ r i

/-- Three concrete composable units. -/
def unitA : CUnit := .prim ("AdditionRunnable") .add 1

/-- Second concrete unit. -/
def unitB : CUnit := .prim ("SubtractionRunnable") .sub 2

/-- Third concrete unit. -/
def unitC : CUnit := .prim ("MultiplicationRunnable") .mul 3

/-- A raw plan with a duplicated atom id (atoms 1 and 3 share id `1`)
and a dependency cycle (atom 1 depends on atom 2 and atom 2 on atom
1), but structurally well-formed. -/
def dupCycleRawPlan : J :=
  .jdict [("atoms", .jlist
    [.jdict [("id", .jint 1), ("kind", .jstr ("tool")), ("name", .jstr ("add")),
             ("dependsOn", .jlist [.jint 2]),
             ("input", .jdict [("a", .jint 1), ("b", .jint 2)])],
     .jdict [("id", .jint 2), ("kind", .jstr ("tool")), ("name", .jstr ("add")),
             ("dependsOn", .jlist [.jint 1]),
             ("input", .jdict [("a", .jint 1), ("b", .jint 2)])],
     .jdict [("id", .jint 1), ("kind", .jstr ("final")), ("name", .jstr ("report")),
             ("dependsOn", .jlist [.jint 2])]])]

/-- A raw plan whose tool atom lacks the `b` input key. -/
def missingInputKeyPlan : J :=
  .jdict [("atoms", .jlist
    [.jdict [("id", .jint 1), ("kind", .jstr ("tool")), ("name", .jstr ("add")),
             ("dependsOn", .jlist []),
             ("input", .jdict [("a", .jint 1)])],
     .jdict [("id", .jint 2), ("kind", .jstr ("final")), ("name", .jstr ("report")),
             ("dependsOn", .jlist [.jint 1])]])]

/-- A raw plan whose last atom is a tool atom, not a final one. -/
def lastNotFinalPlan : J :=
  .jdict [("atoms", .jlist
    [.jdict [("id", .jint 1), ("kind", .jstr ("tool")), ("name", .jstr ("add")),
             ("dependsOn", .jlist []),
             ("input", .jdict [("a", .jint 1), ("b", .jint 2)])]])]

/-! ## Theorems -/

/-- Folding `buildStep` over a list containing a tool atom always
raises, whatever the accumulated node dict. -/
theorem buildStep_fold_error (l : List Atom) :
    ∀ acc : List (Int × ExecNode), (∃ a ∈ l, a.kind = "tool") →
      ∃ e, l.foldlM buildStep acc = .error e := by
  induction l with
  | nil =>
    intro acc h
    rcases h with ⟨a, ha, _⟩
    exact absurd ha (List.not_mem_nil a)
  | cons x xs ih =>
    intro acc h
    by_cases hx : x.kind = "final"
    · have hxs : ∃ a ∈ xs, a.kind = "tool" := by
        rcases h with ⟨a, ha, hk⟩
        rcases List.mem_cons.mp ha with rfl | hmem
        · rw [hx] at hk; exact absurd hk (by decide)
        · exact ⟨a, hmem, hk⟩
      obtain ⟨e, he⟩ := ih acc hxs
      refine ⟨e, ?_⟩
      simpa [List.foldlM, buildStep, hx] using he
    · cases hc : createDeferrableRunnable x.name with
      | error e =>
        exact ⟨e, by simp only [List.foldlM, buildStep, hx, if_neg, hc]; rfl⟩
      | ok op =>
        exact ⟨deferredConstructionError, by simp only [List.foldlM, buildStep, hx, if_neg, hc]; rfl⟩

/-- Same statement for the `crBuildStep` fold of
`CalculatorRunnable._build_execution_plan`. -/
theorem crBuildStep_fold_error (l : List Atom) :
    ∀ acc : Option CUnit, (∃ a ∈ l, a.kind = "tool") →
      ∃ e, l.foldlM crBuildStep acc = .error e := by
  induction l with
  | nil =>
    intro acc h
    rcases h with ⟨a, ha, _⟩
    exact absurd ha (List.not_mem_nil a)
  | cons x xs ih =>
    intro acc h
    by_cases hx : x.kind = "final"
    · have hxs : ∃ a ∈ xs, a.kind = "tool" := by
        rcases h with ⟨a, ha, hk⟩
        rcases List.mem_cons.mp ha with rfl | hmem
        · rw [hx] at hk; exact absurd hk (by decide)
        · exact ⟨a, hmem, hk⟩
      obtain ⟨e, he⟩ := ih acc hxs
      refine ⟨e, ?_⟩
      simpa [List.foldlM, crBuildStep, hx] using he
    · cases hc : createDeferrableRunnable x.name with
      | error e =>
        exact ⟨e, by simp only [List.foldlM, crBuildStep, hx, if_neg, hc]; rfl⟩
      | ok op =>
        exact ⟨deferredConstructionError, by simp only [List.foldlM, crBuildStep, hx, if_neg, hc]; rfl⟩

/-- Claim C1: the spec and the repository tests require the plan for
`(15 + 7) * 3 - 10` to execute to `56` by substituting back-references
and applying the named operators; the engine as written instead raises
while constructing its first deferred unit, and the same engine with
the deferred-unit construction repaired does return `56`. -/
theorem c1_linear_plan_execution :
    executePlan 5 linearPlan = .error deferredConstructionError
    ∧ executePlanIntended 5 linearPlan = .ok 56 := by
  exact ⟨by decide, by decide⟩

/-- Claim C4: the diamond-dependency plan and its scrambled listing both
denote `129.6` (that is, `648 / 5`) under the substitution semantics;
the engine as written raises while building its deferred units, and
the repaired engine returns the identical value for both listings. -/
theorem c4_diamond_scrambled_execution :
    executePlan 8 diamondPlan = .error deferredConstructionError
    ∧ executePlanIntended 8 diamondPlan = .ok ⟨648, 5⟩
    ∧ executePlanIntended 8 scrambledPlan = .ok ⟨648, 5⟩
    ∧ (PyNum.mk 648 5).toRat = (648 : Rat) / 5 := by
  refine ⟨by decide, by decide, by decide, ?_⟩
  norm_num [PyNum.toRat]

/-- Claim C7: `DivisionRunnable._call` with a zero divisor raises Python's
builtin `ZeroDivisionError`; executing a plan that divides by a
literal zero raises before the division is ever reached (the
deferred-unit construction defect), while the repaired engine
propagates the `ZeroDivisionError` and, either way, `execute_plan`
raises as a whole and hands no results context to the caller. -/
theorem c7_division_by_zero :
    divisionRunnableCall 0 10 = .error zeroDivisionError
    ∧ executePlan 3 divZeroPlan = .error deferredConstructionError
    ∧ executePlanIntended 3 divZeroPlan = .error zeroDivisionError := by
  exact ⟨by decide, by decide, by decide⟩

/-- Claim C9: the module `runnables.deferrable_runnable` binds no name
`DeferredRunnable`; the sole `DeferredRunnable` definition in the tree
rejects the keyword `get_constructor_args` that
`Calculator.build_execution_plan` passes (and would also be missing
its required `get_invoke_arg`); consequently building the execution
plan raises for every plan containing a tool atom, before any
arithmetic runs. -/
theorem c9_deferred_construction_always_raises :
    deferrableRunnableModuleNames.contains ("DeferredRunnable") = false
    ∧ bindKeywordArgs deferredRunnableParams atomPipelinerCallKeywords
        = .error (typeError ("unexpected keyword argument " ++ "get_constructor_args"))
    ∧ (deferredRunnableParams.filter (fun p => p.required)).map PyParam.pname
        = ["factory", "get_constructor_arg", "get_invoke_arg"]
    ∧ atomPipelinerCallKeywords.contains ("get_invoke_arg") = false
    ∧ ∀ plan : Plan, (∃ a ∈ plan.atoms, a.kind = "tool") →
        ∃ e, buildExecutionPlan plan = .error e := by
  refine ⟨by decide, by decide, by decide, by decide, ?_⟩
  intro plan h
  exact buildStep_fold_error plan.atoms [] h

/-- Witness for C9: the linear plan contains a tool atom and building its
execution plan raises. -/
theorem c9_witness : ∃ e, buildExecutionPlan linearPlan = .error e :=
  c9_deferred_construction_always_raises.2.2.2.2 linearPlan
    ⟨⟨1, "tool", "add", [("a", .num 15), ("b", .num 7)], []⟩, by decide, rfl⟩

/-- Counterexample for C10: on a plan with two tool atoms,
`CalculatorRunnable._build_execution_plan` fails while constructing
the first deferred unit — the raised error is the deferred-unit
construction failure, not the `TypeError` of an unsupported `|`
composition, which is never reached. -/
theorem c10_counterexample :
    crBuildExecutionPlan 4 twoToolPlan = .error deferredConstructionError
    ∧ deferredConstructionError ≠ unsupportedOrError := by
  exact ⟨rfl, by decide⟩

/-- Claim C10, amended: for every plan whose sorted atom list contains a
tool atom, `CalculatorRunnable._build_execution_plan` raises — already
at the first deferred-unit construction — and the `Runnable` base
class indeed defines no `__or__`, so the `pipeline | runnable`
composition would itself raise `TypeError` were it ever evaluated. -/
theorem c10_build_plan_raises (plan : Plan) (fuel : Nat) (sorted : List Atom)
    (hs : topologicalSort fuel plan = .ok sorted)
    (ht : ∃ a ∈ sorted, a.kind = "tool") :
    (∃ e, crBuildExecutionPlan fuel plan = .error e)
    ∧ runnableClassMethods.contains ("__or__") = false
    ∧ ∀ a b : CUnit, pyOrRunnables a b = .error unsupportedOrError := by
  refine ⟨?_, by decide, ?_⟩
  · obtain ⟨e, he⟩ := crBuildStep_fold_error sorted none ht
    exact ⟨e, by simp only [crBuildExecutionPlan, hs]; exact he⟩
  · intro a b
    rfl

/-- Witness for C10: the two-tool plan instantiates the amended claim. -/
theorem c10_witness :
    (∃ e, crBuildExecutionPlan 4 twoToolPlan = .error e)
    ∧ runnableClassMethods.contains ("__or__") = false
    ∧ ∀ a b : CUnit, pyOrRunnables a b = .error unsupportedOrError :=
  c10_build_plan_raises twoToolPlan 4
    [⟨1, "tool", "add", [("a", .num 1), ("b", .num 2)], []⟩,
     ⟨2, "tool", "multiply", [("a", .strv ("<result_of_1>")), ("b", .num 3)], [1]⟩,
     ⟨3, "final", "report", [], [2]⟩]
    (by decide)
    ⟨⟨1, "tool", "add", [("a", .num 1), ("b", .num 2)], []⟩, by decide, rfl⟩

/-- In the cyclic plan, visiting atom 1 or atom 2 with neither yet
visited exhausts every recursion budget: each visit recurses into the
other before marking anything visited. -/
theorem cycle_visit_exhausts :
    ∀ fuel : Nat, ∀ st : SortState, (1 : Int) ∉ st.visited → (2 : Int) ∉ st.visited →
      visit (atomsDict cyclePlan) fuel 1 st = .error recursionError
      ∧ visit (atomsDict cyclePlan) fuel 2 st = .error recursionError := by
  intro fuel
  induction fuel with
  | zero => intro st h1 h2; exact ⟨rfl, rfl⟩
  | succ n ih =>
    intro st h1 h2
    have hg1 : pyGet (atomsDict cyclePlan) (1 : Int) = some cAtom1 := rfl
    have hg2 : pyGet (atomsDict cyclePlan) (2 : Int) = some cAtom2 := rfl
    constructor
    · have hrec := (ih st h1 h2).2
      simp only [visit, if_neg h1, hg1]
      have hfold : cAtom1.dependsOn.foldlM
          (fun s d => visit (atomsDict cyclePlan) n d s) st = .error recursionError := by
        show List.foldlM _ st [2] = _
        simp only [List.foldlM, hrec]
        rfl
      rw [hfold]
    · have hrec := (ih st h1 h2).1
      simp only [visit, if_neg h2, hg2]
      have hfold : cAtom2.dependsOn.foldlM
          (fun s d => visit (atomsDict cyclePlan) n d s) st = .error recursionError := by
        show List.foldlM _ st [1] = _
        simp only [List.foldlM, hrec]
        rfl
      rw [hfold]

/-- Claim C2: on the two-node cyclic plan, `_topological_sort` never
terminates normally: for every recursion budget the depth-first visit
exhausts the whole budget (Python's `RecursionError`), detecting no
cycle and returning no order. -/
theorem c2_cycle_exhausts_any_stack (fuel : Nat) :
    topologicalSort fuel cyclePlan = .error recursionError := by
  have h := (cycle_visit_exhausts fuel ⟨[], []⟩ (by simp) (by simp)).1
  simp only [topologicalSort]
  have hk : (atomsDict cyclePlan).map Prod.fst = [1, 2, 3] := rfl
  rw [hk]
  simp only [List.foldlM, h]
  rfl

/-- Witness for C2: a concrete recursion budget is exhausted. -/
theorem c2_witness : topologicalSort 9 cyclePlan = .error recursionError :=
  c2_cycle_exhausts_any_stack 9

/-- Claim C6: resolving an input value that is a back-reference string
`<result_of_N>` yields exactly `results[N]` when atom `N` has already
been computed, and raises (`KeyError`) when it has not. -/
theorem c6_backref_resolution (s : String) (n : Int) (results : List (Int × PyNum))
    (hpre : pyStartsWith s refHead = true) (hid : refTargetId s = .ok n) :
    resolveValue results (.strv s)
      = match pyGet results n with
        | some v => .ok (.num v)
        | none => .error resultsKeyError := by
  simp only [resolveValue, hpre, if_pos, hid]

/-- Witness for C6: `<result_of_1>` resolves to the stored value of atom 1
when present and raises when absent. -/
theorem c6_witness :
    resolveValue [((1 : Int), (⟨42, 1⟩ : PyNum))] (.strv ("<result_of_1>"))
        = .ok (.num ⟨42, 1⟩)
    ∧ resolveValue [] (.strv ("<result_of_1>")) = .error resultsKeyError := by
  constructor
  · have h := c6_backref_resolution ("<result_of_1>") 1 [((1 : Int), (⟨42, 1⟩ : PyNum))]
      (by decide) (by decide)
    simpa using h
  · have h := c6_backref_resolution ("<result_of_1>") 1 [] (by decide) (by decide)
    simpa using h

/-- Invoking a sequence over an appended list runs the first part and
feeds its value to the second. -/
theorem invokeList_append (l1 l2 : List CUnit) (x : PyNum) :
    CUnit.invokeList (l1 ++ l2) x
      = match CUnit.invokeList l1 x with
        | .error e => .error e
        | .ok y => CUnit.invokeList l2 y := by
  induction l1 generalizing x with
  | nil => rfl
  | cons r rest ih =>
    show (match CUnit.invoke r x with
          | Except.error e => Except.error e
          | Except.ok y => CUnit.invokeList (rest ++ l2) y)
        = match (match CUnit.invoke r x with
                 | Except.error e => Except.error e
                 | Except.ok y => CUnit.invokeList rest y) with
          | Except.error e => Except.error e
          | Except.ok y => CUnit.invokeList l2 y
    cases CUnit.invoke r x with
    | error e => rfl
    | ok y => exact ih y

/-- A one-element sequence invokes as its sole member. -/
theorem invokeList_singleton (b : CUnit) (y : PyNum) :
    CUnit.invokeList [b] y = CUnit.invoke b y := by
  show (match CUnit.invoke b y with
        | Except.error e => Except.error e
        | Except.ok z => CUnit.invokeList [] z) = _
  cases CUnit.invoke b y with
  | error e => rfl
  | ok z => rfl

/-- `pipe` is composition: invoking `a.pipe b` runs `a`, then feeds
its output to `b`. -/
theorem invoke_pipe (a b : CUnit) (x : PyNum) :
    CUnit.invoke (CUnit.pipe a b) x
      = match CUnit.invoke a x with
        | .error e => .error e
        | .ok y => CUnit.invoke b y := by
  cases a with
  | prim n op v =>
    show (match applyOp op x v with
          | Except.error e => Except.error e
          | Except.ok y => CUnit.invokeList [b] y)
        = match applyOp op x v with
          | Except.error e => Except.error e
          | Except.ok y => CUnit.invoke b y
    cases applyOp op x v with
    | error e => rfl
    | ok y => exact invokeList_singleton b y
  | seq rs =>
    show CUnit.invokeList (rs ++ [b]) x
        = match CUnit.invokeList rs x with
          | Except.error e => Except.error e
          | Except.ok y => CUnit.invoke b y
    rw [invokeList_append]
    cases CUnit.invokeList rs x with
    | error e => rfl
    | ok y => exact invokeList_singleton b y

/-- Counterexample for C5: piping in the grouping `A.pipe (B.pipe C)` does
not produce the flat three-element sequence the claim requires — the
`Runnable.pipe` of `A` wraps the already-built sequence `[B, C]` as a
single member, yielding a nested wrapper. -/
theorem c5_counterexample :
    CUnit.pipe unitA (CUnit.pipe unitB unitC)
        = .seq [unitA, .seq [unitB, unitC]]
    ∧ CUnit.pipe unitA (CUnit.pipe unitB unitC)
        ≠ .seq [unitA, unitB, unitC] := by
  constructor
  · rfl
  · intro h
    rw [show CUnit.pipe unitA (CUnit.pipe unitB unitC)
        = CUnit.seq [unitA, .seq [unitB, unitC]] from rfl] at h
    simp [unitA, unitB, unitC] at h

/-- Claim C5, amended: the two groupings of `pipe` have identical invoke
behaviour on every input, and both print as the flat chain
`A | B | C`; but only `(A.pipe B).pipe C` is the flat three-element
sequence — `A.pipe (B.pipe C)` is a nested wrapper. -/
theorem c5_pipe_associativity (A B C : CUnit) (x : PyNum)
    (nA nB nC : String) (oA oB oC : Op) (vA vB vC : PyNum)
    (hA : A = .prim nA oA vA) (hB : B = .prim nB oB vB) (hC : C = .prim nC oC vC) :
    CUnit.invoke (CUnit.pipe (CUnit.pipe A B) C) x
        = CUnit.invoke (CUnit.pipe A (CUnit.pipe B C)) x
    ∧ CUnit.pipe (CUnit.pipe A B) C = .seq [A, B, C]
    ∧ CUnit.pipe A (CUnit.pipe B C) = .seq [A, .seq [B, C]]
    ∧ CUnit.pstr (CUnit.pipe (CUnit.pipe A B) C)
        = String.intercalate seqSep [nA, nB, nC]
    ∧ CUnit.pstr (CUnit.pipe A (CUnit.pipe B C))
        = String.intercalate seqSep [nA, nB, nC] := by
  refine ⟨?_, ?_, ?_, ?_, ?_⟩
  · simp only [invoke_pipe]
    cases hInvA : CUnit.invoke A x with
    | error e => rfl
    | ok y => rfl
  · subst hA hB hC; rfl
  · subst hA hB hC; rfl
  · subst hA hB hC
    show String.intercalate seqSep [nA, nB, nC] = _
    rfl
  · subst hA hB hC
    show String.intercalate seqSep [nA, String.intercalate seqSep [nB, nC]] = _
    simp [String.intercalate, String.intercalate.go, String.append_assoc]

/-- Witness for C5: the amended statement at three concrete units. -/
theorem c5_witness :
    CUnit.invoke (CUnit.pipe (CUnit.pipe unitA unitB) unitC) 7
        = CUnit.invoke (CUnit.pipe unitA (CUnit.pipe unitB unitC)) 7
    ∧ CUnit.pipe (CUnit.pipe unitA unitB) unitC = .seq [unitA, unitB, unitC]
    ∧ CUnit.pipe unitA (CUnit.pipe unitB unitC) = .seq [unitA, .seq [unitB, unitC]]
    ∧ CUnit.pstr (CUnit.pipe (CUnit.pipe unitA unitB) unitC)
        = String.intercalate seqSep
            [("AdditionRunnable"), ("SubtractionRunnable"), ("MultiplicationRunnable")]
    ∧ CUnit.pstr (CUnit.pipe unitA (CUnit.pipe unitB unitC))
        = String.intercalate seqSep
            [("AdditionRunnable"), ("SubtractionRunnable"), ("MultiplicationRunnable")] :=
  c5_pipe_associativity unitA unitB unitC 7
    ("AdditionRunnable") ("SubtractionRunnable") ("MultiplicationRunnable")
    .add .sub .mul 1 2 3 rfl rfl rfl

/-- Per-atom validation succeeds exactly on atoms meeting the
structural schema. -/
theorem validateAtom_isOk (a : J) : exceptOk (validateAtom a) = structOKAtom a := by
  cases a with
  | jint n => rfl
  | jnum q => rfl
  | jstr v => rfl
  | jlist xs => rfl
  | jdict kvs =>
    simp only [validateAtom, structOKAtom]
    cases hfind : requiredAtomKeys.find? (fun k => !(jhas kvs k)) with
    | some k =>
      have hk : jhas kvs k = false := by
        have := List.find?_some hfind
        simpa using this
      have hmem : k ∈ requiredAtomKeys := List.mem_of_find?_eq_some hfind
      simp only [requiredAtomKeys, List.mem_cons, List.not_mem_nil, or_false] at hmem
      rcases hmem with rfl | rfl | rfl | rfl <;> simp [exceptOk, hk]
    | none =>
      have h4 : ∀ k ∈ requiredAtomKeys, jhas kvs k = true := by
        intro k hkm
        have := List.find?_eq_none.mp hfind k hkm
        simpa using this
      have hid : jhas kvs ("id") = true := h4 ("id") (by simp [requiredAtomKeys])
      have hkd : jhas kvs ("kind") = true := h4 ("kind") (by simp [requiredAtomKeys])
      have hnm : jhas kvs ("name") = true := h4 ("name") (by simp [requiredAtomKeys])
      have hdp : jhas kvs ("dependsOn") = true := h4 ("dependsOn") (by simp [requiredAtomKeys])
      simp only [hid, hkd, hnm, hdp, Bool.true_and]
      cases hk1 : kindIs kvs ("tool") with
      | false =>
        cases hk2 : kindIs kvs ("final") with
        | false => simp [exceptOk]
        | true =>
          simp only [Bool.not_false, Bool.not_true, Bool.true_and, Bool.false_and,
            Bool.false_or, Bool.true_or, Bool.or_true]
          cases hio : (match jget kvs ("id") with | some v => isIntJ v | none => false) with
          | false => simp [exceptOk, hio]
          | true =>
            cases hdo : (match jget kvs ("dependsOn") with
                | some (.jlist ds) => ds.all isIntJ
                | _ => false) with
            | false => simp [exceptOk, hdo]
            | true => simp [exceptOk, hio, hdo, hk1]
      | true =>
        simp only [Bool.not_true, Bool.false_and, Bool.true_and, Bool.true_or]
        cases hio : (match jget kvs ("id") with | some v => isIntJ v | none => false) with
        | false => simp [exceptOk, hio]
        | true =>
          cases hdo : (match jget kvs ("dependsOn") with
              | some (.jlist ds) => ds.all isIntJ
              | _ => false) with
          | false => simp [exceptOk, hdo]
          | true =>
            simp only [Bool.true_and, if_true]
            cases hin : jget kvs ("input") with
            | none => simp [exceptOk, hin, hk1]
            | some v =>
              cases v with
              | jdict ik =>
                cases ha : jhas ik ("a") with
                | false => simp [exceptOk, hin, ha, hk1]
                | true =>
                  cases hb : jhas ik ("b") with
                  | false => simp [exceptOk, hin, ha, hb, hk1]
                  | true => simp [exceptOk, hin, ha, hb, hk1]
              | jint n => simp [exceptOk, hin, hk1]
              | jnum q => simp [exceptOk, hin, hk1]
              | jstr t => simp [exceptOk, hin, hk1]
              | jlist xs => simp [exceptOk, hin, hk1]

/-- A successful per-atom validation returns the atom unchanged. -/
theorem validateAtom_ok_eq {a b : J} (h : validateAtom a = .ok b) : b = a := by
  cases a <;> simp only [validateAtom] at h
  case jdict kvs =>
    cases hfind : requiredAtomKeys.find? (fun k => !(jhas kvs k)) <;> rw [hfind] at h
    case some k => cases h
    case none =>
      repeat' split at h
      all_goals (try cases h)
      all_goals rfl
  all_goals cases h

/-- Validating the atom list succeeds exactly when every atom meets
the schema. -/
theorem validateAtoms_isOk (as : List J) :
    exceptOk (validateAtoms as) = as.all structOKAtom := by
  induction as with
  | nil => rfl
  | cons a rest ih =>
    cases hv : validateAtom a with
    | error e =>
      have hs : structOKAtom a = false := by rw [← validateAtom_isOk, hv]; rfl
      simp [validateAtoms, hv, hs, exceptOk]
    | ok b =>
      have hs : structOKAtom a = true := by rw [← validateAtom_isOk, hv]; rfl
      cases hm : validateAtoms rest with
      | error e =>
        have hr : rest.all structOKAtom = false := by rw [← ih, hm]; rfl
        simp [validateAtoms, hv, hm, hs, hr, exceptOk]
      | ok bs =>
        have hr : rest.all structOKAtom = true := by rw [← ih, hm]; rfl
        simp [validateAtoms, hv, hm, hs, hr, exceptOk]

/-- A successful validation returns the atom list unchanged. -/
theorem validateAtoms_eq {as vs : List J} (h : validateAtoms as = .ok vs) :
    vs = as := by
  induction as generalizing vs with
  | nil => exact (Except.ok.inj h).symm
  | cons a rest ih =>
    simp only [validateAtoms] at h
    cases hv : validateAtom a with
    | error e => rw [hv] at h; cases h
    | ok b =>
      rw [hv] at h
      cases hm : validateAtoms rest with
      | error e => rw [hm] at h; cases h
      | ok bs =>
        rw [hm] at h
        have hcons := Except.ok.inj h
        rw [← hcons, validateAtom_ok_eq hv, ih hm]

/-- Claim C8: plan validation succeeds exactly on raw documents meeting the
per-node structural schema with a final last node — in particular it
fails when a tool node lacks `input`, `a` or `b`, or when the last
node is not final — and it performs no duplicate-id and no cycle
check: the structurally well-formed plan with duplicate ids and a
dependency cycle validates successfully. -/
theorem c8_validation_iff :
    (∀ j : J, exceptOk (validateAtomPlan j) = structOKPlan j)
    ∧ exceptOk (validateAtomPlan dupCycleRawPlan) = true := by
  constructor
  · intro j
    cases j with
    | jint n => rfl
    | jnum q => rfl
    | jstr v => rfl
    | jlist xs => rfl
    | jdict kvs =>
      simp only [validateAtomPlan, structOKPlan]
      cases hat : jget kvs ("atoms") with
      | none => rfl
      | some v =>
        cases v with
        | jint n => rfl
        | jnum q => rfl
        | jstr t => rfl
        | jdict kvs2 => rfl
        | jlist as =>
          cases hm : validateAtoms as with
          | error e =>
            have : as.all structOKAtom = false := by
              rw [← validateAtoms_isOk, hm]; rfl
            simp [hm, this, exceptOk]
          | ok vs =>
            have hvs : vs = as := validateAtoms_eq hm
            have hall : as.all structOKAtom = true := by
              rw [← validateAtoms_isOk, hm]; rfl
            subst hvs
            cases hl : vs.getLast? with
            | none => simp [hm, hl, exceptOk, hall]
            | some la =>
              cases hfin : (match la with
                  | .jdict akvs => kindIs akvs ("final")
                  | _ => false) with
              | false =>
                cases la <;> simp_all [exceptOk]
              | true =>
                cases la <;> simp_all [exceptOk]
  · rfl

/-- Witness for C8: the iff applied to a tool atom missing its `b` input
and to a plan whose last atom is not final. -/
theorem c8_witness :
    exceptOk (validateAtomPlan missingInputKeyPlan) = false
    ∧ exceptOk (validateAtomPlan lastNotFinalPlan) = false := by
  constructor
  · rw [c8_validation_iff.1 missingInputKeyPlan]; rfl
  · rw [c8_validation_iff.1 lastNotFinalPlan]; rfl

/-! ### Correctness of the depth-first topological sort on acyclic,
closed plans -/

/-- Looking up the pair list built from a plan returns only atoms of
the plan, stored under their own id. -/
theorem pyGet_pairs_some {atoms : List Atom} {i : Int} {a : Atom}
    (h : pyGet (atoms.map (fun x => (x.id, x))) i = some a) :
    a ∈ atoms ∧ a.id = i := by
  induction atoms with
  | nil => cases h
  | cons x xs ih =>
    simp only [List.map_cons, pyGet] at h
    by_cases hx : x.id = i
    · rw [if_pos hx] at h
      have hax : x = a := Option.some.inj h
      exact ⟨by rw [← hax]; exact List.mem_cons_self x xs, by rw [← hax]; exact hx⟩
    · rw [if_neg hx] at h
      have := ih h
      exact ⟨List.mem_cons_of_mem x this.1, this.2⟩

/-- With distinct ids, every atom of the plan is found under its id. -/
theorem pyGet_pairs_self {atoms : List Atom} (hnd : (atoms.map Atom.id).Nodup) :
    ∀ a ∈ atoms, pyGet (atoms.map (fun x => (x.id, x))) a.id = some a := by
  induction atoms with
  | nil => intro a ha; cases ha
  | cons x xs ih =>
    intro a ha
    simp only [List.map_cons, pyGet]
    rcases List.mem_cons.mp ha with rfl | hmem
    · rw [if_pos rfl]
    · have hnd' := hnd
      simp only [List.map_cons, List.nodup_cons] at hnd'
      by_cases hx : x.id = a.id
      · exact absurd (hx ▸ List.mem_map_of_mem Atom.id hmem) hnd'.1
      · rw [if_neg hx]
        exact ih hnd'.2 a hmem

/-- Setting a fresh key appends the binding. -/
theorem pySet_fresh {κ β : Type} [DecidableEq κ] {d : List (κ × β)} {k : κ} (v : β)
    (h : k ∉ d.map Prod.fst) : pySet d k v = d ++ [(k, v)] := by
  induction d with
  | nil => rfl
  | cons p rest ih =>
    obtain ⟨k1, v1⟩ := p
    simp only [List.map_cons, List.mem_cons] at h
    push_neg at h
    simp only [pySet]
    rw [if_neg (fun he => h.1 he.symm)]
    rw [ih h.2]
    rfl

/-- With pairwise distinct ids, the dict `{atom["id"]: atom}` is the
pair list of the plan in order. -/
theorem atomsDict_eq {atoms : List Atom} (hnd : (atoms.map Atom.id).Nodup) :
    atomsDict ⟨atoms⟩ = atoms.map (fun a => (a.id, a)) := by
  suffices h : ∀ (l : List Atom) (acc : List (Int × Atom)),
      (∀ a ∈ l, a.id ∉ acc.map Prod.fst) → (l.map Atom.id).Nodup →
      l.foldl (fun d a => pySet d a.id a) acc = acc ++ l.map (fun a => (a.id, a)) by
    have h0 := h atoms [] (by simp) hnd
    simpa [atomsDict] using h0
  intro l
  induction l with
  | nil => intro acc _ _; simp
  | cons x xs ih =>
    intro acc hfresh hnd'
    simp only [List.map_cons, List.nodup_cons] at hnd'
    simp only [List.foldl_cons]
    rw [pySet_fresh x (hfresh x (List.mem_cons_self x xs))]
    rw [ih (acc ++ [(x.id, x)]) ?_ hnd'.2]
    · simp
    · intro a ha
      simp only [List.map_append, List.mem_append]
      push_neg
      refine ⟨hfresh a (List.mem_cons_of_mem x ha), ?_⟩
      simp only [List.map_cons, List.map_nil, List.mem_singleton]
      intro he
      exact hnd'.1 (he ▸ List.mem_map_of_mem Atom.id ha)

/-- `depsBefore` is preserved by appending a node whose dependencies
are all already present. -/
theorem depsBefore_append {l : List Atom} {atom : Atom}
    (hl : depsBefore l) (ha : ∀ d ∈ atom.dependsOn, d ∈ l.map Atom.id) :
    depsBefore (l ++ [atom]) := by
  intro k hk d hd
  rcases Nat.lt_or_ge k l.length with hlt | hge
  · have hget : (l ++ [atom]).get ⟨k, hk⟩ = l.get ⟨k, hlt⟩ := by
      rw [List.get_append k hlt]
    rw [hget] at hd
    have htake : (l ++ [atom]).take k = l.take k :=
      List.take_append_of_le_length (Nat.le_of_lt hlt)
    rw [htake]
    exact hl k hlt d hd
  · have hlen : k = l.length := by
      have : k < l.length + 1 := by simpa using hk
      omega
    subst hlen
    have hget : (l ++ [atom]).get ⟨l.length, hk⟩ = atom := by
      simp [List.get_eq_getElem]
    rw [hget] at hd
    have htake : (l ++ [atom]).take l.length = l := List.take_left l [atom]
    rw [htake]
    exact ha d hd

/-- Membership in `visited` persists along extensions. -/
theorem visited_mono {atomsd : List (Int × Atom)} {st st' : SortState}
    (hInv : SortInv atomsd st) (hInv' : SortInv atomsd st')
    (tail : List Atom) (ht : st'.sortedAtoms = st.sortedAtoms ++ tail) :
    ∀ j ∈ st.visited, j ∈ st'.visited := by
  intro j hj
  rw [hInv'.1, ht, List.map_append, List.mem_append]
  exact Or.inl (hInv.1 ▸ hj)

/-- The fold of `visit` over a dependency list, given the
postcondition of `visit` at the same fuel. -/
theorem visitFold_ok {atomsd : List (Int × Atom)} {r : Int → Nat} (fuel : Nat)
    (IH : ∀ i st st', visit atomsd fuel i st = .ok st' → SortInv atomsd st →
      visitPost atomsd r i st st')
    (R : Nat) :
    ∀ (deps : List Int) (st st1 : SortState),
      deps.foldlM (fun s d => visit atomsd fuel d s) st = .ok st1 →
      SortInv atomsd st → (∀ d ∈ deps, r d < R) →
      SortInv atomsd st1
      ∧ (∃ tail, st1.sortedAtoms = st.sortedAtoms ++ tail)
      ∧ (∀ d ∈ deps, d ∈ st1.visited)
      ∧ ∀ j ∈ st1.visited, j ∈ st.visited ∨ r j < R := by
  intro deps
  induction deps with
  | nil =>
    intro st st1 h hInv _
    have hst : st = st1 := Except.ok.inj h
    subst hst
    exact ⟨hInv, ⟨[], by simp⟩, by simp, fun j hj => Or.inl hj⟩
  | cons d rest ih =>
    intro st st1 h hInv hR
    rw [List.foldlM_cons] at h
    cases hv : visit atomsd fuel d st with
    | error e => rw [hv] at h; cases h
    | ok stm =>
      rw [hv] at h
      have h' : rest.foldlM (fun s d => visit atomsd fuel d s) stm = .ok st1 := h
      obtain ⟨hInv1, ⟨t1, ht1⟩, hd1, hrank1⟩ := IH d st stm hv hInv
      obtain ⟨hInv2, ⟨t2, ht2⟩, hd2, hrank2⟩ :=
        ih stm st1 h' hInv1 (fun x hx => hR x (List.mem_cons_of_mem d hx))
      refine ⟨hInv2, ⟨t1 ++ t2, by rw [ht2, ht1, List.append_assoc]⟩, ?_, ?_⟩
      · intro x hx
        rcases List.mem_cons.mp hx with rfl | hxr
        · exact visited_mono hInv1 hInv2 t2 ht2 x hd1
        · exact hd2 x hxr
      · intro j hj
        rcases hrank2 j hj with hj1 | hjr
        · rcases hrank1 j hj1 with h0 | hle
          · exact Or.inl h0
          · exact Or.inr (Nat.lt_of_le_of_lt hle (hR d (List.mem_cons_self d rest)))
        · exact Or.inr hjr

/-- Partial correctness of `visit`: any successful run satisfies the
postcondition.  Requires that the dict stores atoms under their own
id and that ranks strictly decrease along dependency edges. -/
theorem visit_ok {atomsd : List (Int × Atom)} {r : Int → Nat}
    (hkeys : ∀ i a, pyGet atomsd i = some a → a.id = i)
    (hrk : ∀ i a, pyGet atomsd i = some a → ∀ d ∈ a.dependsOn, r d < r i) :
    ∀ fuel i st st', visit atomsd fuel i st = .ok st' → SortInv atomsd st →
      visitPost atomsd r i st st' := by
  intro fuel
  induction fuel with
  | zero => intro i st st' h; cases h
  | succ fuel ih =>
    intro i st st' h hInv
    by_cases hi : i ∈ st.visited
    · simp only [visit, if_pos hi] at h
      have hst : st = st' := Except.ok.inj h
      subst hst
      exact ⟨hInv, ⟨[], by simp⟩, hi, fun j hj => Or.inl hj⟩
    · cases hg : pyGet atomsd i with
      | none => simp only [visit, if_neg hi, hg] at h; cases h
      | some atom =>
        cases hf : atom.dependsOn.foldlM (fun s d => visit atomsd fuel d s) st with
        | error e => simp only [visit, if_neg hi, hg, hf] at h; cases h
        | ok st1 =>
          simp only [visit, if_neg hi, hg, hf] at h
          have hst' : SortState.mk (st1.visited ++ [i]) (st1.sortedAtoms ++ [atom]) = st' :=
            Except.ok.inj h
          obtain ⟨hInv1, ⟨t1, ht1⟩, hdeps1, hrank1⟩ :=
            visitFold_ok fuel ih (r i) atom.dependsOn st st1 hf hInv (hrk i atom hg)
          have hid : atom.id = i := hkeys i atom hg
          have hinotin1 : i ∉ st1.visited := by
            intro hmem
            rcases hrank1 i hmem with h0 | hlt
            · exact hi h0
            · exact Nat.lt_irrefl (r i) hlt
          subst hst'
          refine ⟨⟨?_, ?_, ?_, ?_⟩, ⟨t1 ++ [atom], by rw [ht1, List.append_assoc]⟩,
            ?_, ?_⟩
          · simp only [List.map_append, List.map_cons, List.map_nil]
            rw [hInv1.1, hid]
          · exact List.Nodup.append hInv1.2.1 (List.nodup_singleton i)
              (by simpa using hinotin1)
          · intro a ha
            rcases List.mem_append.mp ha with hmem | hmem
            · exact hInv1.2.2.1 a hmem
            · have : a = atom := by simpa using hmem
              subst this
              rw [hid]
              exact hg
          · refine depsBefore_append hInv1.2.2.2 ?_
            intro d hd
            have := hdeps1 d hd
            rw [hInv1.1] at this
            exact this
          · simp
          · intro j hj
            rcases List.mem_append.mp hj with hmem | hmem
            · rcases hrank1 j hmem with h0 | hle
              · exact Or.inl h0
              · exact Or.inr (Nat.le_of_lt hle)
            · have hji : j = i := by simpa using hmem
              rw [hji]
              exact Or.inr (Nat.le_refl _)

/-- Totality of `visit` on closed dicts: with fuel exceeding the rank
of the visited id, `visit` cannot fail. -/
theorem visit_total {atomsd : List (Int × Atom)} {r : Int → Nat}
    (hkeys : ∀ i a, pyGet atomsd i = some a → a.id = i)
    (hrk : ∀ i a, pyGet atomsd i = some a → ∀ d ∈ a.dependsOn, r d < r i)
    (hcl : ∀ i a, pyGet atomsd i = some a → ∀ d ∈ a.dependsOn, (pyGet atomsd d).isSome) :
    ∀ fuel i st, SortInv atomsd st → r i < fuel → (pyGet atomsd i).isSome →
      ∃ st', visit atomsd fuel i st = .ok st' := by
  intro fuel
  induction fuel with
  | zero => intro i st _ hlt; omega
  | succ fuel ih =>
    intro i st hInv hlt hsome
    by_cases hi : i ∈ st.visited
    · exact ⟨st, by simp only [visit, if_pos hi]⟩
    · obtain ⟨atom, hg⟩ := Option.isSome_iff_exists.mp hsome
      have hfold : ∀ (deps : List Int), (∀ d ∈ deps, r d < fuel ∧ (pyGet atomsd d).isSome) →
          ∀ st0, SortInv atomsd st0 →
          ∃ st1, deps.foldlM (fun s d => visit atomsd fuel d s) st0 = .ok st1
            ∧ SortInv atomsd st1 := by
        intro deps
        induction deps with
        | nil => intro _ st0 hInv0; exact ⟨st0, rfl, hInv0⟩
        | cons d rest ihd =>
          intro hds st0 hInv0
          obtain ⟨stm, hm⟩ := ih d st0 hInv0 (hds d (List.mem_cons_self d rest)).1
            (hds d (List.mem_cons_self d rest)).2
          have hInvm := (visit_ok hkeys hrk fuel d st0 stm hm hInv0).1
          obtain ⟨st1, h1, hInv1⟩ :=
            ihd (fun x hx => hds x (List.mem_cons_of_mem d hx)) stm hInvm
          refine ⟨st1, ?_, hInv1⟩
          rw [List.foldlM_cons, hm]
          exact h1
      have hds : ∀ d ∈ atom.dependsOn, r d < fuel ∧ (pyGet atomsd d).isSome := by
        intro d hd
        refine ⟨?_, hcl i atom hg d hd⟩
        have h1 := hrk i atom hg d hd
        omega
      obtain ⟨st1, h1, _⟩ := hfold atom.dependsOn hds st hInv
      refine ⟨⟨st1.visited ++ [i], st1.sortedAtoms ++ [atom]⟩, ?_⟩
      simp only [visit, if_neg hi, hg, h1]

/-- The outer loop of the sort: visiting every key of the dict leaves
every key visited. -/
theorem keysFold_ok {atomsd : List (Int × Atom)} {r : Int → Nat} (fuel : Nat)
    (hkeys : ∀ i a, pyGet atomsd i = some a → a.id = i)
    (hrk : ∀ i a, pyGet atomsd i = some a → ∀ d ∈ a.dependsOn, r d < r i)
    (hcl : ∀ i a, pyGet atomsd i = some a → ∀ d ∈ a.dependsOn, (pyGet atomsd d).isSome) :
    ∀ (keys : List Int) (st : SortState), SortInv atomsd st →
      (∀ i ∈ keys, r i < fuel ∧ (pyGet atomsd i).isSome) →
      ∃ st1, keys.foldlM (fun s i => visit atomsd fuel i s) st = .ok st1
        ∧ SortInv atomsd st1
        ∧ (∃ tail, st1.sortedAtoms = st.sortedAtoms ++ tail)
        ∧ (∀ i ∈ keys, i ∈ st1.visited) := by
  intro keys
  induction keys with
  | nil =>
    intro st hInv _
    exact ⟨st, rfl, hInv, ⟨[], by simp⟩, by simp⟩
  | cons i rest ih =>
    intro st hInv hk
    obtain ⟨stm, hm⟩ := visit_total hkeys hrk hcl fuel i st hInv
      (hk i (List.mem_cons_self i rest)).1 (hk i (List.mem_cons_self i rest)).2
    obtain ⟨hInvm, ⟨t1, ht1⟩, him, _⟩ := visit_ok hkeys hrk fuel i st stm hm hInv
    obtain ⟨st1, h1, hInv1, ⟨t2, ht2⟩, hrest⟩ :=
      ih stm hInvm (fun x hx => hk x (List.mem_cons_of_mem i hx))
    refine ⟨st1, ?_, hInv1, ⟨t1 ++ t2, by rw [ht2, ht1, List.append_assoc]⟩, ?_⟩
    · rw [List.foldlM_cons, hm]
      exact h1
    · intro x hx
      rcases List.mem_cons.mp hx with rfl | hxr
      · exact visited_mono hInvm hInv1 t2 ht2 x him
      · exact hrest x hxr

/-- Claim C3: on a plan with pairwise-distinct atom ids whose dependency
ids all name atoms of the plan and whose dependency graph is acyclic
(witnessed by a rank function, bounded by the plan size, that strictly
decreases along dependency edges), `_topological_sort` succeeds and
returns a sequence that contains each plan atom exactly once and in
which every id listed in an atom's `dependsOn` appears strictly
earlier. -/
theorem c3_topological_sort_correct (plan : Plan) (r : Int → Nat)
    (hnd : (plan.atoms.map Atom.id).Nodup)
    (hclosed : ∀ a ∈ plan.atoms, ∀ d ∈ a.dependsOn, d ∈ plan.atoms.map Atom.id)
    (hr : ∀ a ∈ plan.atoms, ∀ d ∈ a.dependsOn, r d < r a.id)
    (hrb : ∀ a ∈ plan.atoms, r a.id < plan.atoms.length) :
    ∃ out, topologicalSort (plan.atoms.length + 1) plan = .ok out
      ∧ (∀ a ∈ plan.atoms, out.count a = 1)
      ∧ (∀ a ∈ out, a ∈ plan.atoms)
      ∧ ∀ k, (hk : k < out.length) → ∀ d ∈ (out.get ⟨k, hk⟩).dependsOn,
          d ∈ (out.take k).map Atom.id := by
  obtain ⟨atoms⟩ := plan
  simp only at hnd hclosed hr hrb ⊢
  have hdict : atomsDict ⟨atoms⟩ = atoms.map (fun a => (a.id, a)) := atomsDict_eq hnd
  set atomsd := atoms.map (fun a => (a.id, a)) with hsetad
  have hkeys : ∀ i a, pyGet atomsd i = some a → a.id = i :=
    fun i a h => (pyGet_pairs_some h).2
  have hmem : ∀ i a, pyGet atomsd i = some a → a ∈ atoms :=
    fun i a h => (pyGet_pairs_some h).1
  have hgetid : ∀ a ∈ atoms, pyGet atomsd a.id = some a := pyGet_pairs_self hnd
  have hsome : ∀ d, d ∈ atoms.map Atom.id → (pyGet atomsd d).isSome := by
    intro d hd
    obtain ⟨b, hb, rfl⟩ := List.mem_map.mp hd
    rw [hgetid b hb]
    rfl
  have hrk : ∀ i a, pyGet atomsd i = some a → ∀ d ∈ a.dependsOn, r d < r i := by
    intro i a h d hd
    have hi := hkeys i a h
    have hlt := hr a (hmem i a h) d hd
    exact hi ▸ hlt
  have hcl : ∀ i a, pyGet atomsd i = some a → ∀ d ∈ a.dependsOn,
      (pyGet atomsd d).isSome := by
    intro i a h d hd
    exact hsome d (hclosed a (hmem i a h) d hd)
  have hInv0 : SortInv atomsd ⟨[], []⟩ := by
    refine ⟨rfl, List.nodup_nil, ?_, ?_⟩
    · intro a ha; cases ha
    · intro k hk; cases hk
  have hkeyslist : atomsd.map Prod.fst = atoms.map Atom.id := by
    simp [hsetad, List.map_map, Function.comp]
  have hkcond : ∀ i ∈ atomsd.map Prod.fst, r i < atoms.length + 1
      ∧ (pyGet atomsd i).isSome := by
    intro i hi
    rw [hkeyslist] at hi
    obtain ⟨b, hb, rfl⟩ := List.mem_map.mp hi
    exact ⟨Nat.lt_succ_of_lt (hrb b hb), hsome b.id (List.mem_map_of_mem Atom.id hb)⟩
  obtain ⟨st1, h1, hInv1, _, hvis⟩ :=
    keysFold_ok (atoms.length + 1) hkeys hrk hcl (atomsd.map Prod.fst) ⟨[], []⟩
      hInv0 hkcond
  refine ⟨st1.sortedAtoms, ?_, ?_, ?_, hInv1.2.2.2⟩
  · simp only [topologicalSort, hdict]
    rw [h1]
  · intro a ha
    have haid : a.id ∈ st1.visited := by
      apply hvis
      rw [hkeyslist]
      exact List.mem_map_of_mem Atom.id ha
    rw [hInv1.1] at haid
    obtain ⟨b, hb, hbid⟩ := List.mem_map.mp haid
    have hgb := hInv1.2.2.1 b hb
    rw [hbid] at hgb
    have hba : b = a := by
      have hga := hgetid a ha
      rw [hga] at hgb
      exact (Option.some.inj hgb).symm
    have hmem2 : a ∈ st1.sortedAtoms := hba ▸ hb
    have hnodup : st1.sortedAtoms.Nodup := by
      have := hInv1.2.1
      rw [hInv1.1] at this
      exact this.of_map
    exact List.count_eq_one_of_mem hnodup hmem2
  · intro a ha
    exact hmem a.id a (hkeys a.id a (hInv1.2.2.1 a ha) ▸ hInv1.2.2.1 a ha)

/-- Witness for C3: the diamond plan instantiates the sort-correctness
theorem, with the rank of atom `i` given by `i - 1`. -/
theorem c3_witness :
    ∃ out, topologicalSort (diamondPlan.atoms.length + 1) diamondPlan = .ok out
      ∧ (∀ a ∈ diamondPlan.atoms, out.count a = 1)
      ∧ (∀ a ∈ out, a ∈ diamondPlan.atoms)
      ∧ ∀ k, (hk : k < out.length) → ∀ d ∈ (out.get ⟨k, hk⟩).dependsOn,
          d ∈ (out.take k).map Atom.id :=
  c3_topological_sort_correct diamondPlan (fun i => (i - 1).toNat)
    (by decide) (by decide) (by decide) (by decide)

end AtomCalc
